import Mathlib

/-!
Shallow embedding of the manifold diffusion core in
`src/ManifoldDiff/DDPM_Diff.py` (SE(3) DDPM: Euclidean translations plus
SO(3) rotations), together with theorems checking the specification's
claims against it.

Conventions of the embedding:
* torch tensors of real numbers are functions into `ℝ`; a batched
  `(B, L, 3)` tensor is `Fin B → Fin L → (Fin 3 → ℝ)` and a batched
  `(B, L, 3, 3)` tensor is `Fin B → Fin L → Matrix (Fin 3) (Fin 3) ℝ`;
  all the torch operations used by the file act elementwise over the two
  batch dimensions, so the per-element geometric primitives are defined on
  single vectors/matrices and mapped over `(b, l)` exactly where the
  source broadcasts.
* floating-point arithmetic is modelled as exact real arithmetic;
  `torch.clamp`/`torch.clip` become `min`/`max`.
* ambient randomness (`torch.randn`, `torch.rand`) is modelled by passing
  the drawn values explicitly as extra `rng…` arguments: a call site that
  draws fresh noise reads the corresponding `rng…` argument, one that uses
  a caller-supplied override ignores it, mirroring the source's
  `x if init is None else init` pattern.
-/

namespace ManifoldDiff

noncomputable section

/-- torch.clamp(x, min=lo, max=hi): clamp into the interval [lo, hi]. -/
def tclamp (x lo hi : ℝ) : ℝ := min (max x lo) hi

/-- torch.clamp(x, min=lo): clamp from below only. -/
def tclampMin (x lo : ℝ) : ℝ := max x lo

/-- A 3-vector (one element of a (..., 3) tensor). -/
abbrev Vec3 := Fin 3 → ℝ

/-- A 3 by 3 real matrix (one element of a (..., 3, 3) tensor). -/
abbrev Mat3 := Matrix (Fin 3) (Fin 3) ℝ

/-- A batched translation/tangent tensor of shape (B, L, 3). -/
abbrev TransB (B L : ℕ) := Fin B → Fin L → Vec3

/-- A batched rotation tensor of shape (B, L, 3, 3). -/
abbrev RotB (B L : ℕ) := Fin B → Fin L → Mat3

/-- skew_symmetric (DDPM_Diff.py lines 47-55): the skew-symmetric matrix
S(v) built from the components of v by stacking rows. -/
def skew_symmetric (v : Vec3) : Mat3 :=
  Matrix.of ![![0, -v 2, v 1], ![v 2, 0, -v 0], ![-v 1, v 0, 0]]

/-- torch.norm(v, dim=-1) on a 3-vector (line 64). -/
def vnorm (v : Vec3) : ℝ := Real.sqrt (v 0 ^ 2 + v 1 ^ 2 + v 2 ^ 2)

/-- The coefficient sin(theta)/theta_clamped of so3_exp_map (lines 64-71):
theta is the true norm, the denominator is clamped to at least 1e-8. -/
def expA (v : Vec3) : ℝ := Real.sin (vnorm v) / tclampMin (vnorm v) 1e-8

/-- The coefficient (1 - cos(theta))/theta_clamped^2 of so3_exp_map
(lines 73). -/
def expB (v : Vec3) : ℝ := (1 - Real.cos (vnorm v)) / tclampMin (vnorm v) 1e-8 ^ 2

/-- so3_exp_map (lines 57-76): Rodrigues' formula
R = I + (sin θ / θc) S(v) + ((1 - cos θ) / θc²) S(v)², with θ = ‖v‖ and
θc = clamp(θ, min=1e-8). -/
def so3_exp_map (v : Vec3) : Mat3 :=
  (1 : Mat3) + expA v • skew_symmetric v + expB v • (skew_symmetric v * skew_symmetric v)

/-- so3_log_map (lines 78-101): cosθ = clamp((trace R - 1)/2, -1+1e-7, 1-1e-7),
θ = acos(cosθ), vector part extracted from the antisymmetric component
Q = (R - Rᵀ)/2, scaled by θ / sin(clamp(θ, min=1e-8)). -/
def so3_log_map (R : Mat3) : Vec3 :=
  let cosTheta := tclamp ((R 0 0 + R 1 1 + R 2 2 - 1) / 2) (-1 + 1e-7) (1 - 1e-7)
  let theta := Real.arccos cosTheta
  let thetaClamped := tclampMin theta 1e-8
  let Q : Mat3 := Matrix.of fun i j => (R i j - R j i) / 2
  let x := (Q 2 1 - Q 1 2) / 2
  let y := (Q 0 2 - Q 2 0) / 2
  let z := (Q 1 0 - Q 0 1) / 2
  fun i => (theta / Real.sin thetaClamped) * ![x, y, z] i

/-- so3_interpolate (lines 103-116): geodesic scaling exp(γ · log x); the
second argument y is unused, exactly as in the source. -/
def so3_interpolate (x _y : Mat3) (gamma : ℝ) : Mat3 :=
  so3_exp_map fun i => gamma * so3_log_map x i

/-- The squared geodesic angle between two rotation matrices, i.e. the
per-batch-element quantity θ² of rotation_distance_loss (lines 129-136)
before the batch mean is taken. -/
def rotAngleSq (R_pred R_true : Mat3) : ℝ :=
  let M := Matrix.transpose R_pred * R_true
  Real.arccos (tclamp ((M 0 0 + M 1 1 + M 2 2 - 1) / 2) (-1 + 1e-7) (1 - 1e-7)) ^ 2

/-- rotation_distance_loss (lines 118-136): mean over the batch of the
squared geodesic angle. -/
def rotation_distance_loss {B L : ℕ} (R_pred R_true : RotB B L) : ℝ :=
  (∑ b, ∑ l, rotAngleSq (R_pred b l) (R_true b l)) / (B * L : ℕ)

/-- F.l1_loss with default mean reduction: mean absolute difference over
all B·L·3 entries. -/
def l1_loss {B L : ℕ} (x y : TransB B L) : ℝ :=
  (∑ b, ∑ l, ∑ i, |x b l i - y b l i|) / (B * L * 3 : ℕ)

/-- The argument of the cosine in cosine_schedule (lines 31-45) at index k:
with T timesteps the code builds steps = T+1 points x = linspace(0, T+1, T+1),
whose k-th entry divided by steps is exactly k/T, so the angle is
((k/T + s)/(1 + s))·(π/2) with s = 0.008. -/
def cosArg (T k : ℕ) : ℝ := (((k : ℝ) / T + 0.008) / (1 + 0.008)) * (Real.pi / 2)

/-- The unnormalised cumulative cosine schedule cos²(cosArg) (line 42).
The normalisation by index 0 (line 43) cancels in the incremental ratios
below and is therefore not re-applied. -/
def acp (T k : ℕ) : ℝ := Real.cos (cosArg T k) ^ 2

/-- cosine_schedule (lines 31-45): incremental ratios of the cumulative
cosine schedule, clipped into [0.001, 1]. -/
def cosine_schedule (T k : ℕ) : ℝ := tclamp (acp T (k + 1) / acp T k) 0.001 1

/-- self.a_bars after the slice on line 168: the cumulative product of the
clipped cosine-schedule alphas; index t holds the product of entries
0..t. (The prepended a_bar_0 = 1 of line 156 only shifts the indexing and
the overwrite of self.a[0] on line 159 happens after the cumprod and is
never read afterwards.) -/
def a_bars (T t : ℕ) : ℝ := ∏ j ∈ Finset.range (t + 1), cosine_schedule T j

/-- The pre-slice value self.a_bars[t] (cumprod including the prepended 1),
used by mean_param1/mean_param2/sigma (lines 164-167). -/
def a_bars_pre (T : ℕ) : ℕ → ℝ
  | 0 => 1
  | t + 1 => a_bars T t

/-- self.x0_param1 (line 161): 1/√(a_bars[t]). -/
def x0_param1 (T t : ℕ) : ℝ := 1 / Real.sqrt (a_bars T t)

/-- self.x0_param2 (line 162): √(1 - a_bars[t]). -/
def x0_param2 (T t : ℕ) : ℝ := Real.sqrt (1 - a_bars T t)

/-- self.q_param1 (line 171): √(a_bars[t]). -/
def q_param1 (T t : ℕ) : ℝ := Real.sqrt (a_bars T t)

/-- self.q_param2 (line 172): √(1 - a_bars[t]). -/
def q_param2 (T t : ℕ) : ℝ := Real.sqrt (1 - a_bars T t)

/-- self.mean_param1 (line 166), re-indexed to 0-based t. -/
def mean_param1 (T t : ℕ) : ℝ :=
  Real.sqrt (cosine_schedule T t) * (1 - a_bars_pre T t) / (1 - a_bars T t)

/-- self.mean_param2 (line 167), re-indexed to 0-based t. -/
def mean_param2 (T t : ℕ) : ℝ :=
  Real.sqrt (a_bars_pre T t) * (1 - cosine_schedule T t) / (1 - a_bars T t)

/-- self.sigma (line 164), re-indexed to 0-based t. -/
def sigma (T t : ℕ) : ℝ :=
  Real.sqrt ((1 - a_bars_pre T t) * (1 - cosine_schedule T t) / (1 - a_bars T t))

/-- torch.linspace(s, e, n) at index k: n evenly spaced points from s to e
inclusive. -/
def linspace (s e : ℝ) (n k : ℕ) : ℝ :=
  if n ≤ 1 then s else s + k * (e - s) / ((n : ℝ) - 1)

/-- The diffusion object's constructor configuration (lines 141-148) with
the source's default values. -/
structure DDPM where
  beta_start : ℝ := 0.1
  beta_end : ℝ := 1.0
  trans_scale : ℝ := 1.0
  num_timesteps : ℕ := 30

/-- The default configuration. -/
def dflt : DDPM := {}

/-- self.beta_t (line 175): linspace(beta_start, beta_end, T). -/
def DDPM.beta_t (d : DDPM) (t : ℕ) : ℝ :=
  linspace d.beta_start d.beta_end d.num_timesteps t

/-- self.alpha_t (line 176): 1 - beta_t. -/
def DDPM.alpha_t (d : DDPM) (t : ℕ) : ℝ := 1 - d.beta_t t

/-- self.alpha_bar_t (line 177): cumulative product of alpha_t. -/
def DDPM.alpha_bar_t (d : DDPM) (t : ℕ) : ℝ :=
  ∏ j ∈ Finset.range (t + 1), d.alpha_t j

/-- forward_process (lines 199-218). `rngE1` and `rngE2` model the two
torch.randn_like draws; `trans_init` overrides the first when present,
`rot_init` is accepted and never read, exactly as in the source. Returns
((x1_t, epsilon1), (Rt, epsilon2)). -/
def DDPM.forward_process {B L : ℕ} (d : DDPM) (x1 : TransB B L) (R0 : RotB B L)
    (t : Fin B → ℕ) (trans_init : Option (TransB B L)) (rot_init : Option (RotB B L))
    (rngE1 rngE2 : TransB B L) :
    (TransB B L × TransB B L) × (RotB B L × TransB B L) :=
  let epsilon1 := trans_init.getD rngE1
  let x1_t : TransB B L := fun b l i =>
    q_param1 d.num_timesteps (t b) * x1 b l i + q_param2 d.num_timesteps (t b) * epsilon1 b l i
  let v0 : TransB B L := fun b l => so3_log_map (R0 b l)
  let epsilon2 := rngE2
  let vt : TransB B L := fun b l i =>
    Real.sqrt (d.alpha_bar_t (t b)) * v0 b l i +
      Real.sqrt (1 - d.alpha_bar_t (t b)) * epsilon2 b l i
  let Rt : RotB B L := fun b l => so3_exp_map (vt b l)
  ((x1_t, epsilon1), (Rt, epsilon2))

/-- Row-major flattening of a 3 by 3 matrix to 9 components
(x2_t.reshape(B, L, 9), line 225). -/
def flatten9 (R : Mat3) : Fin 9 → ℝ :=
  fun k => R ⟨k.val / 3, by omega⟩ ⟨k.val % 3, by omega⟩

/-- The external score-prediction function (spec section 6): it receives the
noised translation batch, the rotation batch flattened to 9 components and
the timestep batch, and returns the two predicted noises. The "Unet" name
tag of the source only transposes the sequence/feature axes around the
call; the embedded model is the default (non-transposing) interface. -/
structure ScoreModel (B L : ℕ) where
  f : TransB B L → (Fin B → Fin L → Fin 9 → ℝ) → (Fin B → ℕ) → TransB B L × TransB B L

/-- compute_loss (lines 220-253). Returns
(total, loss1, loss2, loss_origin1, loss_origin2) exactly as the source
does. -/
def DDPM.compute_loss {B L : ℕ} (d : DDPM) (sm : ScoreModel B L)
    (x1 : TransB B L) (x2 : RotB B L) (t : Fin B → ℕ) (rngE1 rngE2 : TransB B L) :
    ℝ × ℝ × ℝ × ℝ × ℝ :=
  let fp := d.forward_process (fun b l i => x1 b l i * d.trans_scale) x2 t none none rngE1 rngE2
  let x1_t := fp.1.1
  let epsilon1 := fp.1.2
  let x2_t := fp.2.1
  let epsilon2 := fp.2.2
  let x2_t_flatten := fun b l => flatten9 (x2_t b l)
  let p := sm.f x1_t x2_t_flatten t
  let predicted_score1 := p.1
  let predicted_score2 := p.2
  let x0_1 : TransB B L := fun b l i =>
    x0_param1 d.num_timesteps (t b) *
      (x1_t b l i - x0_param2 d.num_timesteps (t b) * predicted_score1 b l i)
  let loss1 := l1_loss predicted_score1 epsilon1
  let loss_origin1 := l1_loss x0_1 x1
  let R_pred : RotB B L := fun b l => so3_exp_map (predicted_score2 b l)
  let R_true : RotB B L := fun b l => so3_exp_map (epsilon2 b l)
  let loss2 := rotation_distance_loss R_pred R_true
  let loss_origin2 : ℝ := 0
  (loss1 + loss_origin1 + loss2 + loss_origin2, loss1, loss2, loss_origin1, loss_origin2)

/-- The Euclidean x0 estimate of the reverse sampler (line 305), before the
clamp of line 306: x0 = x0_param1[t]·(x1_t - x0_param2[t]·predicted_score1). -/
def sampleX0 {B L : ℕ} (T t : ℕ) (x1_t predicted_score1 : TransB B L) : TransB B L :=
  fun b l i =>
    x0_param1 T t * (x1_t b l i - x0_param2 T t * predicted_score1 b l i)

/-- One iteration of the reverse-sampling loop of sample (lines 278-357) at
timestep t, acting on the state (x1_t, x2_t). `trans_noise`/`rot_noise`
are the caller-supplied override tables; `rngT`/`rngR` model the fresh
torch.randn draws used when the overrides are absent. -/
def DDPM.sampleStep {B L : ℕ} (d : DDPM) (sm : ScoreModel B L) (t : ℕ)
    (trans_noise rot_noise : Option (ℕ → TransB B L)) (rngT rngR : ℕ → TransB B L)
    (st : TransB B L × RotB B L) : TransB B L × RotB B L :=
  let x1_t := st.1
  let x2_t := st.2
  let p := sm.f x1_t (fun b l => flatten9 (x2_t b l)) fun _ => t
  let predicted_score1 := p.1
  let predicted_score2 := p.2
  let noise : TransB B L :=
    if 0 < t then (trans_noise.getD rngT) t else fun _ _ _ => 0
  let x0 : TransB B L := fun b l i =>
    tclamp (sampleX0 d.num_timesteps t x1_t predicted_score1 b l i) (-1) 1
  let mean : TransB B L := fun b l i =>
    mean_param1 d.num_timesteps t * x1_t b l i + mean_param2 d.num_timesteps t * x0 b l i
  let x1' : TransB B L := fun b l i =>
    mean b l i + sigma d.num_timesteps t * noise b l i
  let v_t : TransB B L := fun b l => so3_log_map (x2_t b l)
  let v_0_pred : TransB B L := fun b l i =>
    (v_t b l i - Real.sqrt (1 - d.alpha_bar_t t) * predicted_score2 b l i) /
      Real.sqrt (d.alpha_bar_t t)
  let x_0_approx : RotB B L := fun b l => so3_exp_map (v_0_pred b l)
  let x2' : RotB B L :=
    if 0 < t then
      let c1 := Real.sqrt (d.alpha_bar_t (t - 1)) * d.beta_t t / (1 - d.alpha_bar_t t)
      let c2 := Real.sqrt (d.alpha_t t * (1 - d.alpha_bar_t (t - 1))) / (1 - d.alpha_bar_t t)
      let part1 : RotB B L := fun b l =>
        so3_exp_map fun i => c1 * so3_log_map (x_0_approx b l) i
      let part2 : RotB B L := fun b l =>
        so3_exp_map fun i => c2 * so3_log_map (x2_t b l) i
      let mu_t : RotB B L := fun b l => part1 b l * part2 b l
      let epsilon : TransB B L := (rot_noise.getD rngR) t
      fun b l =>
        so3_exp_map fun i =>
          so3_log_map (mu_t b l) i + Real.sqrt (d.beta_t t) * epsilon b l i
    else x_0_approx
  (x1', x2')

/-- The reverse loop of sample: processing k remaining timesteps runs
sampleStep at t = k-1, k-2, ..., 0 (the source's
for t in range(num_steps-1, -1, -1)). -/
def DDPM.sampleLoop {B L : ℕ} (d : DDPM) (sm : ScoreModel B L)
    (trans_noise rot_noise : Option (ℕ → TransB B L)) (rngT rngR : ℕ → TransB B L) :
    ℕ → TransB B L × RotB B L → TransB B L × RotB B L
  | 0, st => st
  | k + 1, st =>
    d.sampleLoop sm trans_noise rot_noise rngT rngR k
      (d.sampleStep sm k trans_noise rot_noise rngT rngR st)

/-- Modelled from the spec: compose_se3 is imported from the repository's
utils module, which is not under src/. Spec section 6 specifies only that
the sampler's output embeds the (Rotation, Translation) pair into one
SE(3) pose structure, the exact composition rule being an external
collaborator's responsibility; it is modelled as the pair itself. -/
def compose_se3 {B L : ℕ} (R : RotB B L) (x : TransB B L) : RotB B L × TransB B L :=
  (R, x)

/-- sample (lines 255-361). `rngInitT`/`rngInitV` model the initial
torch.randn draws (overridden by trans_init/rot_init when present),
`rngT`/`rngR` the per-step draws (overridden by trans_noise/rot_noise when
present). -/
def DDPM.sample {B L : ℕ} (d : DDPM) (sm : ScoreModel B L) (num_steps : ℕ)
    (trans_init : Option (TransB B L)) (rot_init : Option (RotB B L))
    (trans_noise rot_noise : Option (ℕ → TransB B L))
    (rngInitT rngInitV : TransB B L) (rngT rngR : ℕ → TransB B L) :
    RotB B L × TransB B L :=
  let x1_0 := trans_init.getD rngInitT
  let x2_0 := rot_init.getD fun b l => so3_exp_map (rngInitV b l)
  let res := d.sampleLoop sm trans_noise rot_noise rngT rngR num_steps (x1_0, x2_0)
  let x1_f : TransB B L := fun b l i => tclamp (res.1 b l i) (-1) 1
  compose_se3 res.2 fun b l i => x1_f b l i / d.trans_scale

/-!
Helper lemmas about the geometric primitives.
`rodriguesForm v a b` is the shape `I + a·S(v) + b·S(v)²` shared by
`so3_exp_map` for arbitrary coefficients; the algebraic identities below
are polynomial in `a`, `b` and the components of `v`.
-/

/-- The Rodrigues shape I + a·S(v) + b·S(v)² for arbitrary coefficients. -/
def rodriguesForm (v : Vec3) (a b : ℝ) : Mat3 :=
  (1 : Mat3) + a • skew_symmetric v + b • (skew_symmetric v * skew_symmetric v)

lemma so3_exp_map_eq_rodriguesForm (v : Vec3) :
    so3_exp_map v = rodriguesForm v (expA v) (expB v) := rfl

lemma rodriguesForm_entries (v : Vec3) (a b : ℝ) :
    rodriguesForm v a b = Matrix.of
      ![![1 + b * (-(v 2 ^ 2) - v 1 ^ 2), a * (-(v 2)) + b * (v 0 * v 1), a * v 1 + b * (v 0 * v 2)],
        ![a * v 2 + b * (v 0 * v 1), 1 + b * (-(v 2 ^ 2) - v 0 ^ 2), a * (-(v 0)) + b * (v 1 * v 2)],
        ![a * (-(v 1)) + b * (v 0 * v 2), a * v 0 + b * (v 1 * v 2), 1 + b * (-(v 1 ^ 2) - v 0 ^ 2)]] := by
  ext i j
  fin_cases i <;> fin_cases j <;>
    simp [rodriguesForm, skew_symmetric, Matrix.mul_apply, Fin.sum_univ_three, Matrix.one_apply,
      -mul_eq_mul_left_iff, -mul_eq_mul_right_iff] <;> try ring1

lemma skew_sq_entries (v : Vec3) :
    skew_symmetric v * skew_symmetric v =
      Matrix.of ![![-(v 2 ^ 2) - v 1 ^ 2, v 0 * v 1, v 0 * v 2],
                  ![v 0 * v 1, -(v 2 ^ 2) - v 0 ^ 2, v 1 * v 2],
                  ![v 0 * v 2, v 1 * v 2, -(v 1 ^ 2) - v 0 ^ 2]] := by
  ext i j
  fin_cases i <;> fin_cases j <;>
    simp [skew_symmetric, Matrix.mul_apply, Fin.sum_univ_three] <;> ring

lemma rodriguesForm_transpose (v : Vec3) (a b : ℝ) :
    Matrix.transpose (rodriguesForm v a b) = rodriguesForm v (-a) b := by
  ext i j
  fin_cases i <;> fin_cases j <;>
    simp [rodriguesForm, skew_symmetric, Matrix.mul_apply, Fin.sum_univ_three, Matrix.one_apply,
      Matrix.transpose_apply, -mul_eq_mul_left_iff, -mul_eq_mul_right_iff] <;> try ring1

set_option maxHeartbeats 1000000 in
lemma rodriguesForm_mul_self (v : Vec3) (a b : ℝ) :
    rodriguesForm v (-a) b * rodriguesForm v a b =
      1 + (2 * b - a ^ 2 - b ^ 2 * (v 0 ^ 2 + v 1 ^ 2 + v 2 ^ 2)) •
        (skew_symmetric v * skew_symmetric v) := by
  rw [rodriguesForm_entries v (-a) b, rodriguesForm_entries v a b, skew_sq_entries]
  ext i j
  fin_cases i <;> fin_cases j <;>
    simp [Matrix.mul_apply, Fin.sum_univ_three, Matrix.one_apply,
      -mul_eq_mul_left_iff, -mul_eq_mul_right_iff] <;> try ring1

lemma rodriguesForm_orth (v : Vec3) (a b : ℝ) :
    Matrix.transpose (rodriguesForm v a b) * rodriguesForm v a b =
      1 + (2 * b - a ^ 2 - b ^ 2 * (v 0 ^ 2 + v 1 ^ 2 + v 2 ^ 2)) •
        (skew_symmetric v * skew_symmetric v) := by
  rw [rodriguesForm_transpose, rodriguesForm_mul_self]

lemma rodriguesForm_det (v : Vec3) (a b : ℝ) :
    (rodriguesForm v a b).det =
      (1 - b * (v 0 ^ 2 + v 1 ^ 2 + v 2 ^ 2)) ^ 2 + a ^ 2 * (v 0 ^ 2 + v 1 ^ 2 + v 2 ^ 2) := by
  rw [Matrix.det_fin_three, rodriguesForm_entries]
  simp
  ring

lemma vnorm_nonneg (v : Vec3) : 0 ≤ vnorm v := Real.sqrt_nonneg _

lemma sq_vnorm (v : Vec3) : vnorm v ^ 2 = v 0 ^ 2 + v 1 ^ 2 + v 2 ^ 2 :=
  Real.sq_sqrt (by positivity)

lemma abs_le_vnorm (v : Vec3) (i : Fin 3) : |v i| ≤ vnorm v := by
  have h : v i ^ 2 ≤ v 0 ^ 2 + v 1 ^ 2 + v 2 ^ 2 := by
    fin_cases i <;> simp <;>
      nlinarith [sq_nonneg (v 0), sq_nonneg (v 1), sq_nonneg (v 2)]
  calc |v i| = Real.sqrt (v i ^ 2) := (Real.sqrt_sq_eq_abs _).symm
  _ ≤ vnorm v := Real.sqrt_le_sqrt h

lemma skew_sq_eq (v : Vec3) :
    skew_symmetric v * skew_symmetric v =
      Matrix.of (fun i j => v i * v j) - (v 0 ^ 2 + v 1 ^ 2 + v 2 ^ 2) • 1 := by
  ext i j
  fin_cases i <;> fin_cases j <;>
    simp [skew_symmetric, Matrix.mul_apply, Fin.sum_univ_three, Matrix.one_apply] <;> ring

lemma sq_le_sq_vnorm (v : Vec3) (k : Fin 3) : v k ^ 2 ≤ vnorm v ^ 2 := by
  have h := abs_le_vnorm v k
  nlinarith [abs_nonneg (v k), sq_abs (v k), vnorm_nonneg v]

lemma abs_skew_sq_entry_le (v : Vec3) (i j : Fin 3) :
    |(skew_symmetric v * skew_symmetric v) i j| ≤ vnorm v ^ 2 := by
  rw [skew_sq_eq]
  rcases eq_or_ne i j with h | h
  · subst h
    simp only [Matrix.sub_apply, Matrix.of_apply, Matrix.smul_apply, Matrix.one_apply_eq,
      smul_eq_mul, mul_one]
    rw [abs_le]
    constructor <;>
      nlinarith [sq_le_sq_vnorm v i, sq_vnorm v, sq_nonneg (v i), vnorm_nonneg v,
        sq_nonneg (vnorm v)]
  · simp only [Matrix.sub_apply, Matrix.of_apply, Matrix.smul_apply, Matrix.one_apply_ne h,
      smul_eq_mul, mul_zero, sub_zero]
    calc |v i * v j| = |v i| * |v j| := abs_mul _ _
    _ ≤ vnorm v * vnorm v :=
      mul_le_mul (abs_le_vnorm v i) (abs_le_vnorm v j) (abs_nonneg _) (vnorm_nonneg v)
    _ = vnorm v ^ 2 := (pow_two (vnorm v)).symm

/-- Validity of a rotation within a numerical tolerance: every entry of
RᵀR - I and the deviation of det R from 1 are bounded by tol. -/
def isRotWithin (tol : ℝ) (R : Mat3) : Prop :=
  (∀ i j, |(Matrix.transpose R * R - 1) i j| ≤ tol) ∧ |R.det - 1| ≤ tol

lemma expA_exact (v : Vec3) (h : 1e-8 ≤ vnorm v) :
    expA v = Real.sin (vnorm v) / vnorm v := by
  unfold expA tclampMin
  rw [max_eq_left h]

lemma expB_exact (v : Vec3) (h : 1e-8 ≤ vnorm v) :
    expB v = (1 - Real.cos (vnorm v)) / vnorm v ^ 2 := by
  unfold expB tclampMin
  rw [max_eq_left h]

/-- In the exact regime (θ at least the clamp floor) the exponential map is
exactly orthogonal. -/
lemma so3_exp_map_orth_exact (v : Vec3) (h : 1e-8 ≤ vnorm v) :
    Matrix.transpose (so3_exp_map v) * so3_exp_map v = 1 := by
  have hpos : 0 < vnorm v := lt_of_lt_of_le (by norm_num) h
  have hne : vnorm v ≠ 0 := ne_of_gt hpos
  have hsq := sq_vnorm v
  have hk : 2 * expB v - expA v ^ 2 - expB v ^ 2 * (v 0 ^ 2 + v 1 ^ 2 + v 2 ^ 2) = 0 := by
    rw [expA_exact v h, expB_exact v h, ← hsq]
    have hs := Real.sin_sq_add_cos_sq (vnorm v)
    field_simp
    nlinarith [hs]
  rw [so3_exp_map_eq_rodriguesForm, rodriguesForm_orth, hk]
  simp

/-- In the exact regime the exponential map has determinant exactly 1. -/
lemma so3_exp_map_det_exact (v : Vec3) (h : 1e-8 ≤ vnorm v) :
    (so3_exp_map v).det = 1 := by
  have hpos : 0 < vnorm v := lt_of_lt_of_le (by norm_num) h
  have hne : vnorm v ≠ 0 := ne_of_gt hpos
  have hsq := sq_vnorm v
  rw [so3_exp_map_eq_rodriguesForm, rodriguesForm_det, ← hsq, expA_exact v h, expB_exact v h]
  field_simp

set_option maxHeartbeats 800000 in
/-- For every tangent vector the exponential map lands in SO(3) within
tolerance 1e-9: exactly when the norm avoids the clamp window (0, 1e-8),
and with an explicitly bounded deviation inside it. -/
lemma so3_exp_map_isRot (v : Vec3) : isRotWithin 1e-9 (so3_exp_map v) := by
  have hθ0 : 0 ≤ vnorm v := vnorm_nonneg v
  have hsq := sq_vnorm v
  rcases le_or_lt 1e-8 (vnorm v) with hc | hc
  · constructor
    · intro i j
      rw [so3_exp_map_orth_exact v hc]
      simp
      norm_num
    · rw [so3_exp_map_det_exact v hc]
      norm_num
  · -- clamped regime: 0 ≤ θ < 1e-8
    have hmax : tclampMin (vnorm v) 1e-8 = 1e-8 := by
      unfold tclampMin
      rw [max_eq_right (le_of_lt hc)]
    have hA : expA v = Real.sin (vnorm v) / 1e-8 := by unfold expA; rw [hmax]
    have hB : expB v = (1 - Real.cos (vnorm v)) / 1e-8 ^ 2 := by unfold expB; rw [hmax]
    have hπ : vnorm v ≤ Real.pi := by
      have := Real.pi_gt_three
      linarith
    have hsin1 : Real.sin (vnorm v) ≤ vnorm v := Real.sin_le hθ0
    have hsin0 : 0 ≤ Real.sin (vnorm v) := Real.sin_nonneg_of_nonneg_of_le_pi hθ0 hπ
    have hcos1 : Real.cos (vnorm v) ≤ 1 := Real.cos_le_one _
    have hcosb : 1 - vnorm v ^ 2 / 2 ≤ Real.cos (vnorm v) := Real.one_sub_sq_div_two_le_cos
    have ha0 : 0 ≤ expA v := by
      rw [hA]
      positivity
    have ha1 : expA v ≤ 1 := by
      rw [hA, div_le_one (by norm_num)]
      linarith
    have hb0 : 0 ≤ expB v := by
      rw [hB]
      apply div_nonneg (by linarith) (by norm_num)
    have hb1 : expB v ≤ 1 / 2 := by
      rw [hB, div_le_iff (by norm_num)]
      nlinarith
    have hn2 : v 0 ^ 2 + v 1 ^ 2 + v 2 ^ 2 ≤ 1e-16 := by
      rw [← hsq]
      nlinarith
    have hn2nn : (0 : ℝ) ≤ v 0 ^ 2 + v 1 ^ 2 + v 2 ^ 2 := by positivity
    have hkabs :
        |2 * expB v - expA v ^ 2 - expB v ^ 2 * (v 0 ^ 2 + v 1 ^ 2 + v 2 ^ 2)| ≤ 2.1 := by
      rw [abs_le]
      constructor <;>
        nlinarith [sq_nonneg (expA v), sq_nonneg (expB v),
          mul_le_mul (mul_le_mul hb1 hb1 hb0 (by norm_num)) hn2 hn2nn (by norm_num : (0:ℝ) ≤ 1/2 * (1/2)),
          mul_nonneg (mul_nonneg hb0 hb0) hn2nn]
    constructor
    · intro i j
      rw [so3_exp_map_eq_rodriguesForm, rodriguesForm_orth]
      have hentry := abs_skew_sq_entry_le v i j
      have hθsq : vnorm v ^ 2 ≤ 1e-16 := by nlinarith
      simp only [add_sub_cancel_left, Matrix.smul_apply, smul_eq_mul, abs_mul]
      calc |2 * expB v - expA v ^ 2 - expB v ^ 2 * (v 0 ^ 2 + v 1 ^ 2 + v 2 ^ 2)| *
            |(skew_symmetric v * skew_symmetric v) i j| ≤ 2.1 * vnorm v ^ 2 :=
        mul_le_mul hkabs hentry (abs_nonneg _) (by norm_num)
      _ ≤ 1e-9 := by nlinarith
    · rw [so3_exp_map_eq_rodriguesForm, rodriguesForm_det]
      have hbn2 : expB v * (v 0 ^ 2 + v 1 ^ 2 + v 2 ^ 2) ≤ 1e-16 := by
        have h := mul_le_mul hb1 hn2 hn2nn (by norm_num : (0:ℝ) ≤ 1/2)
        nlinarith [h]
      have hbn2nn : 0 ≤ expB v * (v 0 ^ 2 + v 1 ^ 2 + v 2 ^ 2) := mul_nonneg hb0 hn2nn
      have han2 : expA v ^ 2 * (v 0 ^ 2 + v 1 ^ 2 + v 2 ^ 2) ≤ 1e-16 := by
        nlinarith [mul_le_mul ha1 ha1 ha0 (by norm_num : (0:ℝ) ≤ 1), hn2, hn2nn,
          sq_nonneg (expA v)]
      have han2nn : 0 ≤ expA v ^ 2 * (v 0 ^ 2 + v 1 ^ 2 + v 2 ^ 2) := by positivity
      have hbsq : expB v * (v 0 ^ 2 + v 1 ^ 2 + v 2 ^ 2) *
          (expB v * (v 0 ^ 2 + v 1 ^ 2 + v 2 ^ 2)) ≤ 1e-16 * 1e-16 :=
        mul_le_mul hbn2 hbn2 hbn2nn (by norm_num)
      rw [abs_le]
      constructor <;> nlinarith [hbn2, hbn2nn, han2, han2nn, hbsq]

/-- The rotational output of the reverse-sampling step is always an image
of the exponential map (both the t > 0 branch and the terminal branch). -/
lemma sampleStep_rot_exp {B L : ℕ} (d : DDPM) (sm : ScoreModel B L) (t : ℕ)
    (tn rn : Option (ℕ → TransB B L)) (rT rR : ℕ → TransB B L)
    (st : TransB B L × RotB B L) (b : Fin B) (l : Fin L) :
    ∃ w : Vec3, (d.sampleStep sm t tn rn rT rR st).2 b l = so3_exp_map w := by
  by_cases h0 : 0 < t
  · simp only [DDPM.sampleStep, if_pos h0]
    exact ⟨_, rfl⟩
  · simp only [DDPM.sampleStep, if_neg h0]
    exact ⟨_, rfl⟩

/-- C1: every value of so3_exp_map is a rotation matrix to within numerical
tolerance (entries of RᵀR - I and det R - 1 bounded by 1e-9), and hence so
is the rotation produced by forward_process and by every reverse-sampling
step, at every batch position. -/
theorem claim_C1_exp_map_valid_rotations :
    (∀ v : Vec3, isRotWithin 1e-9 (so3_exp_map v)) ∧
    (∀ (B L : ℕ) (d : DDPM) (x1 : TransB B L) (R0 : RotB B L) (t : Fin B → ℕ)
      (trans_init : Option (TransB B L)) (rot_init : Option (RotB B L))
      (rngE1 rngE2 : TransB B L) (b : Fin B) (l : Fin L),
      isRotWithin 1e-9 ((d.forward_process x1 R0 t trans_init rot_init rngE1 rngE2).2.1 b l)) ∧
    (∀ (B L : ℕ) (d : DDPM) (sm : ScoreModel B L) (t : ℕ)
      (tn rn : Option (ℕ → TransB B L)) (rT rR : ℕ → TransB B L)
      (st : TransB B L × RotB B L) (b : Fin B) (l : Fin L),
      isRotWithin 1e-9 ((d.sampleStep sm t tn rn rT rR st).2 b l)) := by
  refine ⟨so3_exp_map_isRot, ?_, ?_⟩
  · intro B L d x1 R0 t trans_init rot_init rngE1 rngE2 b l
    exact so3_exp_map_isRot _
  · intro B L d sm t tn rn rT rR st b l
    obtain ⟨w, hw⟩ := sampleStep_rot_exp d sm t tn rn rT rR st b l
    rw [hw]
    exact so3_exp_map_isRot w

/-- C6: so3_exp_map of the zero vector is exactly the identity matrix, and
consequently so3_interpolate with γ = 0 returns the identity for every
input matrix. -/
theorem claim_C6_exp_zero_identity :
    so3_exp_map (fun _ => 0) = 1 ∧ ∀ x y : Mat3, so3_interpolate x y 0 = 1 := by
  have h0 : so3_exp_map (fun _ => 0) = 1 := by
    have hv : vnorm (fun _ => 0) = 0 := by
      simp [vnorm]
    unfold so3_exp_map expA expB
    rw [hv]
    simp
  refine ⟨h0, fun x y => ?_⟩
  unfold so3_interpolate
  have hz : (fun i => (0:ℝ) * so3_log_map x i) = fun _ => (0:ℝ) := by
    funext i
    exact zero_mul _
  rw [hz, h0]

/-- C9: the Euclidean branch of forward_process returns
x_t = √(ᾱ_t)·x0 + √(1-ᾱ_t)·ε₁ with each batch element b using the
coefficients of its own timestep t(b), where ε₁ is the caller-supplied
override when given (and the fresh draw otherwise), and the returned noise
is exactly that ε₁. -/
theorem claim_C9_forward_euclidean_formula (B L : ℕ) (d : DDPM) (x1 : TransB B L)
    (R0 : RotB B L) (t : Fin B → ℕ) (trans_init : Option (TransB B L))
    (rot_init : Option (RotB B L)) (rngE1 rngE2 : TransB B L) :
    ((d.forward_process x1 R0 t trans_init rot_init rngE1 rngE2).1.1 = fun b l i =>
        Real.sqrt (a_bars d.num_timesteps (t b)) * x1 b l i +
          Real.sqrt (1 - a_bars d.num_timesteps (t b)) * (trans_init.getD rngE1) b l i) ∧
    (d.forward_process x1 R0 t trans_init rot_init rngE1 rngE2).1.2 = trans_init.getD rngE1 ∧
    (∀ e : TransB B L, (d.forward_process x1 R0 t (some e) rot_init rngE1 rngE2).1.2 = e) ∧
    (d.forward_process x1 R0 t none rot_init rngE1 rngE2).1.2 = rngE1 :=
  ⟨rfl, rfl, fun _ => rfl, rfl⟩

/-- C10: forward_process does not read its rot_init parameter: calls
differing only in rot_init return identical outputs, and the rotational
noise it returns is always the fresh tangent-space draw. -/
theorem claim_C10_forward_ignores_rot_init (B L : ℕ) (d : DDPM) (x1 : TransB B L)
    (R0 : RotB B L) (t : Fin B → ℕ) (trans_init : Option (TransB B L))
    (ri1 ri2 : Option (RotB B L)) (rngE1 rngE2 : TransB B L) :
    d.forward_process x1 R0 t trans_init ri1 rngE1 rngE2 =
      d.forward_process x1 R0 t trans_init ri2 rngE1 rngE2 ∧
    (d.forward_process x1 R0 t trans_init ri1 rngE1 rngE2).2.2 = rngE2 :=
  ⟨rfl, rfl⟩

/-- With every noise override supplied, one reverse step never reads the
ambient random draws. -/
lemma sampleStep_rng_irrel {B L : ℕ} (d : DDPM) (sm : ScoreModel B L) (t : ℕ)
    (f g : ℕ → TransB B L) (rT rR rT' rR' : ℕ → TransB B L) (st : TransB B L × RotB B L) :
    d.sampleStep sm t (some f) (some g) rT rR st =
      d.sampleStep sm t (some f) (some g) rT' rR' st := rfl

/-- With every noise override supplied, the reverse loop never reads the
ambient random draws. -/
lemma sampleLoop_rng_irrel {B L : ℕ} (d : DDPM) (sm : ScoreModel B L)
    (f g : ℕ → TransB B L) (rT rR rT' rR' : ℕ → TransB B L) :
    ∀ (k : ℕ) (st : TransB B L × RotB B L),
      d.sampleLoop sm (some f) (some g) rT rR k st =
        d.sampleLoop sm (some f) (some g) rT' rR' k st := by
  intro k
  induction k with
  | zero => intro st; rfl
  | succ k ih =>
    intro st
    simp only [DDPM.sampleLoop]
    exact ih _

/-- C7: when the caller overrides every noise draw (trans_init, rot_init,
trans_noise and rot_noise all supplied), sample draws no fresh randomness:
two runs with identical overrides and the same score model produce
identical outputs regardless of the ambient random values. -/
theorem claim_C7_sample_deterministic_with_overrides (B L : ℕ) (d : DDPM)
    (sm : ScoreModel B L) (num_steps : ℕ) (ti : TransB B L) (ri : RotB B L)
    (f g : ℕ → TransB B L) (rITa rIVa : TransB B L) (rTa rRa : ℕ → TransB B L)
    (rITb rIVb : TransB B L) (rTb rRb : ℕ → TransB B L) :
    d.sample sm num_steps (some ti) (some ri) (some f) (some g) rITa rIVa rTa rRa =
      d.sample sm num_steps (some ti) (some ri) (some f) (some g) rITb rIVb rTb rRb := by
  simp only [DDPM.sample, Option.getD_some]
  rw [sampleLoop_rng_irrel d sm f g rTa rRa rTb rRb num_steps]

/-- C8: compute_loss returns a total equal to the sum of exactly four
terms: the mean absolute error between predicted and true Euclidean noise,
the mean absolute error between the reconstructed clean-signal estimate
and the clean signal, the geodesic rotation distance between
exp(predicted rotational noise) and exp(true rotational noise), and a
rotational x0-reconstruction term that is identically zero (also returned
as the last component). -/
theorem claim_C8_loss_is_sum_of_four_terms (B L : ℕ) (d : DDPM) (sm : ScoreModel B L)
    (x1 : TransB B L) (x2 : RotB B L) (t : Fin B → ℕ) (rngE1 rngE2 : TransB B L) :
    let fp := d.forward_process (fun b l i => x1 b l i * d.trans_scale) x2 t none none rngE1 rngE2
    let p := sm.f fp.1.1 (fun b l => flatten9 (fp.2.1 b l)) t
    let x0_1 : TransB B L := fun b l i =>
      x0_param1 d.num_timesteps (t b) *
        (fp.1.1 b l i - x0_param2 d.num_timesteps (t b) * p.1 b l i)
    (d.compute_loss sm x1 x2 t rngE1 rngE2).1 =
      l1_loss p.1 fp.1.2 + l1_loss x0_1 x1 +
        rotation_distance_loss (fun b l => so3_exp_map (p.2 b l))
          (fun b l => so3_exp_map (fp.2.2 b l)) + 0 ∧
    (d.compute_loss sm x1 x2 t rngE1 rngE2).2.2.2.2 = 0 :=
  ⟨rfl, rfl⟩

/-!
Facts about the default Euclidean cosine schedule at T = 30 that drive the
C2 counterexample: the first clipped alpha is strictly inside (0, 1), so
x0_param1 0 = 1/√(a_bars 0) is strictly greater than 1.
-/

lemma cosArg_nonneg (T k : ℕ) : 0 ≤ cosArg T k := by
  unfold cosArg
  have := Real.pi_pos
  positivity

lemma cosArg30_0_lt_1 : cosArg 30 0 < cosArg 30 1 := by
  unfold cosArg
  have hπ : 0 < Real.pi / 2 := by positivity
  apply mul_lt_mul_of_pos_right _ hπ
  norm_num

lemma cosArg30_1_lt_half_pi : cosArg 30 1 < Real.pi / 2 := by
  unfold cosArg
  have hπ : 0 < Real.pi / 2 := by positivity
  have hc : (((1:ℕ):ℝ) / ((30:ℕ):ℝ) + 0.008) / (1 + 0.008) < 1 := by
    push_cast
    norm_num
  have h2 := mul_lt_mul_of_pos_right hc hπ
  rw [one_mul] at h2
  exact h2

lemma acp30_0_pos : 0 < acp 30 0 := by
  unfold acp
  have h1 : Real.cos (cosArg 30 0) > 0 := by
    apply Real.cos_pos_of_mem_Ioo
    constructor
    · have := cosArg_nonneg 30 0
      have hπ : 0 < Real.pi / 2 := by positivity
      linarith
    · exact lt_trans cosArg30_0_lt_1 cosArg30_1_lt_half_pi
  positivity

lemma acp30_1_lt_acp30_0 : acp 30 1 < acp 30 0 := by
  unfold acp
  have h1 : 0 < Real.cos (cosArg 30 1) := by
    apply Real.cos_pos_of_mem_Ioo
    constructor
    · have := cosArg_nonneg 30 1
      have hπ : 0 < Real.pi / 2 := by positivity
      linarith
    · exact cosArg30_1_lt_half_pi
  have h2 : Real.cos (cosArg 30 1) < Real.cos (cosArg 30 0) := by
    apply Real.cos_lt_cos_of_nonneg_of_le_pi (cosArg_nonneg 30 0)
    · have h := cosArg30_1_lt_half_pi
      have := Real.pi_pos
      linarith
    · exact cosArg30_0_lt_1
  exact pow_lt_pow_left h2 (le_of_lt h1) (by norm_num)

lemma cosine_schedule30_0_lt_one : cosine_schedule 30 0 < 1 := by
  unfold cosine_schedule tclamp
  have hr : acp 30 1 / acp 30 0 < 1 := by
    rw [div_lt_one acp30_0_pos]
    exact acp30_1_lt_acp30_0
  exact min_lt_iff.mpr (Or.inl (max_lt hr (by norm_num)))

lemma cosine_schedule30_0_pos : 0 < cosine_schedule 30 0 := by
  unfold cosine_schedule tclamp
  have : (0.001 : ℝ) ≤ min (max (acp 30 1 / acp 30 0) 0.001) 1 :=
    le_min (le_max_right _ _) (by norm_num)
  linarith

lemma a_bars_30_0 : a_bars 30 0 = cosine_schedule 30 0 := by
  simp [a_bars]

lemma x0_param1_30_0_gt_one : 1 < x0_param1 30 0 := by
  unfold x0_param1
  rw [a_bars_30_0]
  have hs1 : Real.sqrt (cosine_schedule 30 0) < 1 := by
    have h := Real.sqrt_lt_sqrt (le_of_lt cosine_schedule30_0_pos) cosine_schedule30_0_lt_one
    rwa [Real.sqrt_one] at h
  have hs0 : 0 < Real.sqrt (cosine_schedule 30 0) := Real.sqrt_pos.mpr cosine_schedule30_0_pos
  rw [lt_div_iff hs0]
  linarith

/-- C2 counterexample: with the default configuration, at timestep 0 and a
zero noise prediction, the reverse sampler's pre-clamp x0 estimate does not
equal the current noised sample: on the all-ones sample it is
x0_param1[0] = 1/√(ᾱ_0) > 1. -/
theorem claim_C2_cex :
    sampleX0 dflt.num_timesteps 0 ((fun _ _ _ => 1) : TransB 1 1) (fun _ _ _ => 0) ≠
      fun _ _ _ => 1 := by
  intro h
  have hval := congrFun (congrFun (congrFun h 0) 0) 0
  unfold sampleX0 at hval
  rw [mul_zero, sub_zero, mul_one] at hval
  have : (1:ℝ) < x0_param1 dflt.num_timesteps 0 := x0_param1_30_0_gt_one
  rw [hval] at this
  exact lt_irrefl 1 this

/-- C2 amended: with a zero noise prediction the subtracted term vanishes,
so the reverse sampler's x0 estimate equals x0_param1[t]·x_t — the current
noised sample scaled by 1/√(ᾱ_t) — rather than x_t itself. -/
theorem claim_C2_x0_estimate_scaled (B L T t : ℕ) (x1_t : TransB B L) :
    sampleX0 T t x1_t (fun _ _ _ => 0) = fun b l i => x0_param1 T t * x1_t b l i := by
  funext b l i
  unfold sampleX0
  rw [mul_zero, sub_zero]

/-- C3 counterexample: under the default configuration
(beta_start = 0.1, beta_end = 1.0, T = 30) the √(ᾱ_t) denominator used by
the reverse sampler's rotational v0 reconstruction is exactly zero at
t = 29 — it is not clamped away from zero. -/
theorem claim_C3_cex : Real.sqrt (dflt.alpha_bar_t 29) = 0 := by
  have h : dflt.alpha_bar_t 29 = 0 := by
    unfold DDPM.alpha_bar_t
    apply Finset.prod_eq_zero (Finset.mem_range.mpr (by norm_num : (29:ℕ) < 30))
    simp [DDPM.alpha_t, DDPM.beta_t, dflt, linspace]
    norm_num
  rw [h, Real.sqrt_zero]

/-- C3 amended: the acos arguments are clamped strictly inside (-1, 1) and
the log-map θ denominator is clamped to at least 1e-8, but the reverse
sampler's √(ᾱ_t) denominator is not clamped: under the default
configuration it is positive only for t ≤ 28 (and zero at t = 29). -/
theorem claim_C3_clamps (c x : ℝ) (t : ℕ) (ht : t ≤ 28) :
    (-1 < tclamp c (-1 + 1e-7) (1 - 1e-7) ∧ tclamp c (-1 + 1e-7) (1 - 1e-7) < 1) ∧
    1e-8 ≤ tclampMin x 1e-8 ∧
    0 < dflt.alpha_bar_t t := by
  refine ⟨⟨?_, ?_⟩, le_max_right _ _, ?_⟩
  · unfold tclamp
    exact lt_min (lt_of_lt_of_le (by norm_num) (le_max_right _ _)) (by norm_num)
  · exact lt_of_le_of_lt (min_le_right _ _) (by norm_num)
  · unfold DDPM.alpha_bar_t
    apply Finset.prod_pos
    intro j hj
    have hj' : (j:ℝ) ≤ 28 := by
      have := Finset.mem_range.mp hj
      exact_mod_cast by omega
    simp [DDPM.alpha_t, DDPM.beta_t, dflt, linspace]
    nlinarith [hj']

/-- Witness for the C3 amended theorem at the concrete inputs c = 2,
x = 0.5, t = 28. -/
theorem claim_C3_clamps_witness :
    (-1 < tclamp 2 (-1 + 1e-7) (1 - 1e-7) ∧ tclamp 2 (-1 + 1e-7) (1 - 1e-7) < 1) ∧
    (1e-8 : ℝ) ≤ tclampMin 0.5 1e-8 ∧
    0 < dflt.alpha_bar_t 28 :=
  claim_C3_clamps 2 0.5 28 (by norm_num)

/-- The per-element squared geodesic angle of a rotation against itself is
the fixed constant arccos(1 - 1e-7)², because the clamp pulls cosθ = 1
down to 1 - 1e-7. -/
lemma rotAngleSq_self_of_orth (R : Mat3) (h : Matrix.transpose R * R = 1) :
    rotAngleSq R R = Real.arccos (1 - 1e-7) ^ 2 := by
  unfold rotAngleSq
  rw [h]
  show Real.arccos (tclamp (((1:Mat3) 0 0 + (1:Mat3) 1 1 + (1:Mat3) 2 2 - 1) / 2)
      (-1 + 1e-7) (1 - 1e-7)) ^ 2 = _
  have he : ((1:Mat3) 0 0 + (1:Mat3) 1 1 + (1:Mat3) 2 2 - 1) / 2 = 1 := by
    norm_num [Matrix.one_apply]
  rw [he]
  have hc : tclamp 1 (-1 + 1e-7) (1 - 1e-7) = 1 - 1e-7 := by
    unfold tclamp
    rw [max_eq_left (by norm_num), min_eq_right (by norm_num)]
  rw [hc]

/-- C4 counterexample: rotation_distance_loss of the identity rotation
against itself is not 0 (the clamp to 1 - 1e-7 forces a positive angle). -/
theorem claim_C4_cex :
    rotation_distance_loss ((fun _ _ => 1) : RotB 1 1) (fun _ _ => 1) ≠ 0 := by
  have hval : rotation_distance_loss ((fun _ _ => 1) : RotB 1 1) (fun _ _ => 1) =
      Real.arccos (1 - 1e-7) ^ 2 := by
    unfold rotation_distance_loss
    rw [Fin.sum_univ_one, Fin.sum_univ_one, rotAngleSq_self_of_orth 1 (by simp)]
    norm_num
  rw [hval]
  have hpos : 0 < Real.arccos (1 - 1e-7) := Real.arccos_pos.mpr (by norm_num)
  exact ne_of_gt (pow_pos hpos 2)

/-- C4 amended: for every nonempty batch of orthogonal rotation matrices,
rotation_distance_loss(R, R) equals the fixed constant arccos(1 - 1e-7)²
(positive, though within numerical tolerance of 0) rather than exactly 0. -/
theorem claim_C4_distance_self_constant (B L : ℕ) (hB : 0 < B) (hL : 0 < L)
    (P : RotB B L) (h : ∀ b l, Matrix.transpose (P b l) * P b l = 1) :
    rotation_distance_loss P P = Real.arccos (1 - 1e-7) ^ 2 := by
  unfold rotation_distance_loss
  have hBL : ((B * L : ℕ) : ℝ) ≠ 0 := by
    have : 0 < B * L := Nat.mul_pos hB hL
    exact_mod_cast Nat.pos_iff_ne_zero.mp this
  have hsum : (∑ b, ∑ l, rotAngleSq (P b l) (P b l)) =
      (B * L : ℕ) * Real.arccos (1 - 1e-7) ^ 2 := by
    have : (∑ b : Fin B, ∑ l : Fin L, rotAngleSq (P b l) (P b l)) =
        ∑ _b : Fin B, ∑ _l : Fin L, Real.arccos (1 - 1e-7) ^ 2 :=
      Finset.sum_congr rfl fun b _ =>
        Finset.sum_congr rfl fun l _ => rotAngleSq_self_of_orth _ (h b l)
    rw [this]
    simp [Finset.sum_const, Finset.card_univ]
    ring
  rw [hsum, mul_comm, mul_div_assoc, div_self hBL, mul_one]

/-- Witness for the C4 amended theorem: the identity batch of size 1×1. -/
theorem claim_C4_distance_self_constant_witness :
    rotation_distance_loss ((fun _ _ => 1) : RotB 1 1) (fun _ _ => 1) =
      Real.arccos (1 - 1e-7) ^ 2 :=
  claim_C4_distance_self_constant 1 1 (by norm_num) (by norm_num) _ fun _ _ => by simp

/-- Unfolding of so3_log_map into one closed expression. -/
lemma so3_log_map_eq (R : Mat3) :
    so3_log_map R = fun i =>
      Real.arccos (tclamp ((R 0 0 + R 1 1 + R 2 2 - 1) / 2) (-1 + 1e-7) (1 - 1e-7)) /
        Real.sin (tclampMin
          (Real.arccos (tclamp ((R 0 0 + R 1 1 + R 2 2 - 1) / 2) (-1 + 1e-7) (1 - 1e-7)))
          1e-8) *
      ![((R 2 1 - R 1 2) / 2 - (R 1 2 - R 2 1) / 2) / 2,
        ((R 0 2 - R 2 0) / 2 - (R 2 0 - R 0 2) / 2) / 2,
        ((R 1 0 - R 0 1) / 2 - (R 0 1 - R 1 0) / 2) / 2] i := rfl

/-- The trace of the exponential map in the exact regime is 1 + 2cosθ. -/
lemma so3_exp_trace (v : Vec3) (h : 1e-8 ≤ vnorm v) :
    so3_exp_map v 0 0 + so3_exp_map v 1 1 + so3_exp_map v 2 2 =
      1 + 2 * Real.cos (vnorm v) := by
  have hpos : 0 < vnorm v := lt_of_lt_of_le (by norm_num) h
  have hne : vnorm v ≠ 0 := ne_of_gt hpos
  have hsq := sq_vnorm v
  have hb : expB v * (v 0 ^ 2 + v 1 ^ 2 + v 2 ^ 2) = 1 - Real.cos (vnorm v) := by
    rw [expB_exact v h, ← hsq]
    field_simp
  rw [so3_exp_map_eq_rodriguesForm, rodriguesForm_entries]
  simp
  linear_combination (-2 : ℝ) * hb

/-- The antisymmetric differences of the exponential map in the exact
regime recover (2 sinθ/θ)·v. -/
lemma so3_exp_antisym (v : Vec3) (h : 1e-8 ≤ vnorm v) :
    so3_exp_map v 2 1 - so3_exp_map v 1 2 = 2 * (Real.sin (vnorm v) / vnorm v) * v 0 ∧
    so3_exp_map v 0 2 - so3_exp_map v 2 0 = 2 * (Real.sin (vnorm v) / vnorm v) * v 1 ∧
    so3_exp_map v 1 0 - so3_exp_map v 0 1 = 2 * (Real.sin (vnorm v) / vnorm v) * v 2 := by
  rw [so3_exp_map_eq_rodriguesForm, rodriguesForm_entries]
  refine ⟨?_, ?_, ?_⟩ <;> simp <;> rw [expA_exact v h] <;> ring

/-- Closed formula for log(exp v) in the exact regime of the exponential
map (no assumption yet on the log-side clamps). -/
lemma so3_log_exp_formula (v : Vec3) (h : 1e-8 ≤ vnorm v) :
    so3_log_map (so3_exp_map v) = fun i =>
      Real.arccos (tclamp (Real.cos (vnorm v)) (-1 + 1e-7) (1 - 1e-7)) /
        Real.sin (tclampMin
          (Real.arccos (tclamp (Real.cos (vnorm v)) (-1 + 1e-7) (1 - 1e-7))) 1e-8) *
      (Real.sin (vnorm v) / vnorm v * v i) := by
  obtain ⟨h21, h02, h10⟩ := so3_exp_antisym v h
  rw [so3_log_map_eq]
  funext i
  rw [so3_exp_trace v h]
  rw [show (1 + 2 * Real.cos (vnorm v) - 1) / 2 = Real.cos (vnorm v) from by ring]
  fin_cases i
  · show Real.arccos (tclamp (Real.cos (vnorm v)) (-1 + 1e-7) (1 - 1e-7)) /
        Real.sin (tclampMin
          (Real.arccos (tclamp (Real.cos (vnorm v)) (-1 + 1e-7) (1 - 1e-7))) 1e-8) *
        (((so3_exp_map v 2 1 - so3_exp_map v 1 2) / 2 -
          (so3_exp_map v 1 2 - so3_exp_map v 2 1) / 2) / 2) =
      Real.arccos (tclamp (Real.cos (vnorm v)) (-1 + 1e-7) (1 - 1e-7)) /
        Real.sin (tclampMin
          (Real.arccos (tclamp (Real.cos (vnorm v)) (-1 + 1e-7) (1 - 1e-7))) 1e-8) *
        (Real.sin (vnorm v) / vnorm v * v 0)
    have hD : so3_exp_map v 1 2 - so3_exp_map v 2 1 =
        -(2 * (Real.sin (vnorm v) / vnorm v) * v 0) := by linarith
    rw [h21, hD]
    ring
  · show Real.arccos (tclamp (Real.cos (vnorm v)) (-1 + 1e-7) (1 - 1e-7)) /
        Real.sin (tclampMin
          (Real.arccos (tclamp (Real.cos (vnorm v)) (-1 + 1e-7) (1 - 1e-7))) 1e-8) *
        (((so3_exp_map v 0 2 - so3_exp_map v 2 0) / 2 -
          (so3_exp_map v 2 0 - so3_exp_map v 0 2) / 2) / 2) =
      Real.arccos (tclamp (Real.cos (vnorm v)) (-1 + 1e-7) (1 - 1e-7)) /
        Real.sin (tclampMin
          (Real.arccos (tclamp (Real.cos (vnorm v)) (-1 + 1e-7) (1 - 1e-7))) 1e-8) *
        (Real.sin (vnorm v) / vnorm v * v 1)
    have hD : so3_exp_map v 2 0 - so3_exp_map v 0 2 =
        -(2 * (Real.sin (vnorm v) / vnorm v) * v 1) := by linarith
    rw [h02, hD]
    ring
  · show Real.arccos (tclamp (Real.cos (vnorm v)) (-1 + 1e-7) (1 - 1e-7)) /
        Real.sin (tclampMin
          (Real.arccos (tclamp (Real.cos (vnorm v)) (-1 + 1e-7) (1 - 1e-7))) 1e-8) *
        (((so3_exp_map v 1 0 - so3_exp_map v 0 1) / 2 -
          (so3_exp_map v 0 1 - so3_exp_map v 1 0) / 2) / 2) =
      Real.arccos (tclamp (Real.cos (vnorm v)) (-1 + 1e-7) (1 - 1e-7)) /
        Real.sin (tclampMin
          (Real.arccos (tclamp (Real.cos (vnorm v)) (-1 + 1e-7) (1 - 1e-7))) 1e-8) *
        (Real.sin (vnorm v) / vnorm v * v 2)
    have hD : so3_exp_map v 0 1 - so3_exp_map v 1 0 =
        -(2 * (Real.sin (vnorm v) / vnorm v) * v 2) := by linarith
    rw [h10, hD]
    ring

/-- C5 amended: when the angle is inside the clamp band — ‖v‖ ≤ π and
cos ‖v‖ within [-1+1e-7, 1-1e-7] — the round trips are EXACT:
log(exp v) = v and exp(log(exp v)) = exp v. (Outside the band the clamps
break the round trip; see the counterexample.) -/
theorem claim_C5_log_exp_roundtrip (v : Vec3) (hπ : vnorm v ≤ Real.pi)
    (h1 : Real.cos (vnorm v) ≤ 1 - 1e-7) (h2 : -1 + 1e-7 ≤ Real.cos (vnorm v)) :
    so3_log_map (so3_exp_map v) = v ∧
      so3_exp_map (so3_log_map (so3_exp_map v)) = so3_exp_map v := by
  have hθ0 : 0 ≤ vnorm v := vnorm_nonneg v
  have hθe : 1e-8 ≤ vnorm v := by
    by_contra hlt
    push_neg at hlt
    have hb : 1 - vnorm v ^ 2 / 2 ≤ Real.cos (vnorm v) := Real.one_sub_sq_div_two_le_cos
    nlinarith
  have hθpos : 0 < vnorm v := lt_of_lt_of_le (by norm_num) hθe
  have hθlt : vnorm v < Real.pi := by
    rcases lt_or_eq_of_le hπ with hl | he
    · exact hl
    · exfalso
      rw [he, Real.cos_pi] at h2
      norm_num at h2
  have hsin : 0 < Real.sin (vnorm v) := Real.sin_pos_of_pos_of_lt_pi hθpos hθlt
  have hclampcos : tclamp (Real.cos (vnorm v)) (-1 + 1e-7) (1 - 1e-7) = Real.cos (vnorm v) := by
    unfold tclamp
    rw [max_eq_left h2, min_eq_left h1]
  have hfirst : so3_log_map (so3_exp_map v) = v := by
    rw [so3_log_exp_formula v hθe]
    funext i
    rw [hclampcos, Real.arccos_cos hθ0 hπ]
    rw [show tclampMin (vnorm v) 1e-8 = vnorm v from max_eq_left hθe]
    field_simp
    ring
  exact ⟨hfirst, by rw [hfirst]⟩

/-- Witness for the C5 amended theorem at v = (1, 0, 0): ‖v‖ = 1 and cos 1
lies inside the clamp band, so both round trips are exact there. -/
theorem claim_C5_log_exp_roundtrip_witness :
    so3_log_map (so3_exp_map ![1, 0, 0]) = ![1, 0, 0] ∧
      so3_exp_map (so3_log_map (so3_exp_map ![1, 0, 0])) = so3_exp_map ![1, 0, 0] := by
  have hvn : vnorm ![1, 0, 0] = 1 := by
    unfold vnorm
    norm_num
  apply claim_C5_log_exp_roundtrip ![1, 0, 0]
  · rw [hvn]
    linarith [Real.pi_gt_three]
  · rw [hvn]
    have := Real.cos_one_le
    norm_num
    linarith
  · rw [hvn]
    have := Real.cos_one_pos
    norm_num
    linarith

/-- C5 counterexample: at v = (π - 1e-5, 0, 0), whose norm is strictly
below π, the round trip log(exp v) is NOT within numerical tolerance of v:
the acos clamp maps cosθ = cos(π - 1e-5) < -1+1e-7 to -1+1e-7, and the
first component of log(exp v) is at most ≈0.079 while v₀ = π - 1e-5, an
absolute error larger than 3 (so certainly larger than the 1e-3
tolerance). -/
theorem claim_C5_cex :
    vnorm ![Real.pi - 1e-5, 0, 0] < Real.pi ∧
      1e-3 < |so3_log_map (so3_exp_map ![Real.pi - 1e-5, 0, 0]) 0 -
        (![Real.pi - 1e-5, 0, 0] : Vec3) 0| := by
  have hπ3 := Real.pi_gt_three
  have hx : (![Real.pi - 1e-5, 0, 0] : Vec3) 0 = Real.pi - 1e-5 := rfl
  have hvn : vnorm ![Real.pi - 1e-5, 0, 0] = Real.pi - 1e-5 := by
    unfold vnorm
    norm_num
    rw [Real.sqrt_sq (by linarith)]
  constructor
  · rw [hvn]
    linarith
  · have hθe : (1e-8:ℝ) ≤ vnorm ![Real.pi - 1e-5, 0, 0] := by
      rw [hvn]
      linarith
    rw [so3_log_exp_formula _ hθe]
    simp only []
    rw [hvn, hx, Real.cos_pi_sub, Real.sin_pi_sub]
    have hcos5 : 1 - 1e-7 < Real.cos 1e-5 := by
      have hb : 1 - (1e-5:ℝ) ^ 2 / 2 ≤ Real.cos 1e-5 := Real.one_sub_sq_div_two_le_cos
      nlinarith
    have hclamp : tclamp (-Real.cos 1e-5) (-1 + 1e-7) (1 - 1e-7) = -1 + 1e-7 := by
      unfold tclamp
      rw [max_eq_right (by linarith), min_eq_left (by norm_num)]
    rw [hclamp]
    have hθ'half : Real.pi / 2 < Real.arccos (-1 + 1e-7) := by
      have hn : ¬ ((0:ℝ) ≤ -1 + 1e-7) := by norm_num
      have hle : ¬ (Real.arccos (-1 + 1e-7) ≤ Real.pi / 2) := fun hle =>
        hn (Real.arccos_le_pi_div_two.mp hle)
      exact not_le.mp hle
    have hθ'min : tclampMin (Real.arccos (-1 + 1e-7)) 1e-8 = Real.arccos (-1 + 1e-7) := by
      unfold tclampMin
      rw [max_eq_left (by nlinarith)]
    rw [hθ'min]
    have hsinθ' : Real.sin (Real.arccos (-1 + 1e-7)) = Real.sqrt (1 - (-1 + 1e-7) ^ 2) :=
      Real.sin_arccos _
    have hsinlb : (0.0004:ℝ) ≤ Real.sin (Real.arccos (-1 + 1e-7)) := by
      rw [hsinθ', Real.le_sqrt (by norm_num) (by norm_num)]
      norm_num
    have hθ'ub : Real.arccos (-1 + 1e-7) ≤ Real.pi := Real.arccos_le_pi _
    have hπub : Real.pi < 3.15 := Real.pi_lt_d2
    have hsin5ub : Real.sin 1e-5 ≤ 1e-5 := Real.sin_le (by norm_num)
    have hsin5lb : 0 ≤ Real.sin 1e-5 :=
      Real.sin_nonneg_of_nonneg_of_le_pi (by norm_num) (by linarith)
    have hne5 : Real.pi - 1e-5 ≠ 0 := ne_of_gt (by linarith)
    have hval : Real.arccos (-1 + 1e-7) / Real.sin (Real.arccos (-1 + 1e-7)) *
        (Real.sin 1e-5 / (Real.pi - 1e-5) * (Real.pi - 1e-5)) =
        Real.arccos (-1 + 1e-7) * Real.sin 1e-5 / Real.sin (Real.arccos (-1 + 1e-7)) := by
      rw [div_mul_cancel₀ _ hne5]
      ring
    rw [hval]
    have hub : Real.arccos (-1 + 1e-7) * Real.sin 1e-5 /
        Real.sin (Real.arccos (-1 + 1e-7)) ≤ 3.15 * 1e-5 / 0.0004 := by
      apply div_le_div (by norm_num) ?_ (by norm_num) hsinlb
      exact mul_le_mul (by linarith) hsin5ub hsin5lb (by norm_num)
    have hnonneg : 0 ≤ Real.pi - 1e-5 -
        Real.arccos (-1 + 1e-7) * Real.sin 1e-5 / Real.sin (Real.arccos (-1 + 1e-7)) := by
      nlinarith [hub]
    rw [abs_sub_comm, abs_of_nonneg hnonneg]
    nlinarith [hub]

end

end ManifoldDiff
